import Mathlib

/-!
Verification model of the El Wafaa shipping server
(source file `src/unnamed/part_000`; `src/server.js` is the same code
without the order ledger and purchase bookkeeping).

Modelling conventions
* Outbound HTTP calls are modelled by passing the remote responses in
  explicitly: a quote request takes one `ShipmentResult` per package
  (the response of the Shippo create-shipment call for that package, in
  package order), a purchase takes a function `tx : Nat -> TransactionResult`
  giving the response to the i-th issued label-purchase call, and printing
  takes a `PrintWorld` giving the PrintNode responses.
* JavaScript `x || y` on an optional string (both `undefined` and the
  empty string are falsy) is modelled by `jsOr`.
* `Promise.all` over the per-package shipment calls is modelled
  sequentially: when several packages fail, the error of the lowest
  failing index is surfaced (`mkShipments`).
* `parseFloat` on the carrier amount strings and the running
  `total_amount` are modelled exactly over `Rat` by `parseAmount`; the
  `toFixed(2)` string rendering of the source is IEEE-754 double
  behaviour and is deliberately not modelled (claim C2).
* The `completed_at` timestamp and the dollar-formatted `total` of a
  stored order record are wall-clock time and floating-point formatting
  respectively; they are omitted from `OrderRecord` and no claim below
  refers to them.  Console logging and the packing-slip HTML string are
  pure output with no effect on any modelled state and are omitted.
-/

/-- JavaScript `a || b` for an optional string: `undefined` and `""` are
falsy, any other string is returned as is. -/
def jsOr (a : Option String) (b : String) : String :=
  match a with
  | none => b
  | some s => if s = "" then b else s

/-- A carrier service level, as in the `servicelevel` object of a Shippo
rate (`token` and display `name`). -/
structure ServiceLevel where
  token : String
  name : String
deriving DecidableEq, Repr

/-- One rate offer inside the `rates` array of a created shipment. -/
structure RateOffer where
  provider : String
  servicelevel : ServiceLevel
  estimated_days : Option Nat
  amount : String
  currency : String
  object_id : String
deriving DecidableEq, Repr

/-- Response of one Shippo create-shipment call for one package:
HTTP status, optional `detail` field of the body, shipment `object_id`,
and the optional `rates` array. -/
structure ShipmentResult where
  status : Nat
  detail : Option String
  object_id : String
  rates : Option (List RateOffer)
deriving DecidableEq, Repr

/-- `result.data.rates || []` of the source. -/
def jsRates (r : ShipmentResult) : List RateOffer := r.rates.getD []

/-- The per-package shipment record built inside `getRatesForPackages`
(`packageIndex`, `shipment_id`, `rates`). -/
structure Shipment where
  packageIndex : Nat
  shipment_id : String
  rates : List RateOffer
deriving DecidableEq, Repr

/-- Error message of a failed create-shipment call:
`result.data.detail || "Failed to create shipment for package N"`
with N the 1-based package number. -/
def shipmentFailMsg (idx : Nat) (r : ShipmentResult) : String :=
  jsOr r.detail ("Failed to create shipment for package " ++ toString (idx + 1))

/-- The fan-out of one create-shipment call per package joined by
`Promise.all`, modelled sequentially: a response whose status is neither
201 nor 200 aborts the whole operation with that package error message
(lowest failing index first); otherwise one `Shipment` per package is
returned, index-aligned. -/
def mkShipments : Nat → List ShipmentResult → Except String (List Shipment)
  | _, [] => .ok []
  | idx, r :: rest =>
    if r.status ≠ 201 ∧ r.status ≠ 200 then
      .error (shipmentFailMsg idx r)
    else
      match mkShipments (idx + 1) rest with
      | .error e => .error e
      | .ok ss => .ok ({ packageIndex := idx, shipment_id := r.object_id,
                         rates := jsRates r } :: ss)

/-- Digits-only parse of a character list (none on a non-digit or on the
empty list); helper for `parseAmount`. -/
def parseDigits (cs : List Char) : Option Nat :=
  match cs with
  | [] => none
  | _ =>
    cs.foldlM (fun acc c => if c.isDigit then some (acc * 10 + (c.toNat - 48)) else none) 0

/-- Exact-decimal model of `parseFloat` on the decimal amount strings
returned by the carrier (`"12.50"` and the like); malformed strings give
0.  The source uses IEEE-754 doubles here — see claim C2. -/
def parseAmount (s : String) : ℚ :=
  match s.splitOn "." with
  | [w] => ((parseDigits w.toList).getD 0 : ℚ)
  | [w, f] =>
    match parseDigits w.toList, parseDigits f.toList with
    | some a, some b => (a : ℚ) + (b : ℚ) / ((10 : ℚ) ^ f.length)
    | _, _ => 0
  | _ => 0

/-- One entry of a grouped quote `package_rates` list:
`{ packageIndex, rate_id, amount }`. -/
structure PackageRateRef where
  packageIndex : Nat
  rate_id : String
  amount : String
deriving DecidableEq, Repr

/-- The value stored in `rateMap` for one key while aggregating. -/
structure Grouped where
  provider : String
  servicelevel : ServiceLevel
  estimated_days : Option Nat
  total_amount : ℚ
  currency : String
  package_rates : List PackageRateRef
deriving DecidableEq, Repr

/-- The `rateMap` JavaScript `Map`: an insertion-ordered association
list. -/
abbrev RateMap := List (String × Grouped)

/-- The aggregation key: `rate.provider + "-" + rate.servicelevel.token`. -/
def rateKey (r : RateOffer) : String := r.provider ++ "-" ++ r.servicelevel.token

/-- `rateMap.has key`. -/
def hasKey (m : RateMap) (k : String) : Bool := m.any (fun e => e.1 == k)

/-- The fresh value stored by `rateMap.set(key, {...})` when the key is
absent: provider, servicelevel, estimated days and currency of the offer
at hand, zero total, empty `package_rates`. -/
def baseGrouped (r : RateOffer) : Grouped :=
  { provider := r.provider, servicelevel := r.servicelevel,
    estimated_days := r.estimated_days, total_amount := 0,
    currency := r.currency, package_rates := [] }

/-- The mutation applied to the grouped entry for every offer:
`total_amount += parseFloat(rate.amount)` and a push of
`{ packageIndex, rate_id, amount }`. -/
def addToGrouped (g : Grouped) (pidx : Nat) (r : RateOffer) : Grouped :=
  { g with total_amount := g.total_amount + parseAmount r.amount,
           package_rates := g.package_rates ++ [⟨pidx, r.object_id, r.amount⟩] }

/-- Processing of one rate offer of one package: create the entry if the
key is absent, then apply `addToGrouped` to the entry under the key. -/
def insertRate (m : RateMap) (pidx : Nat) (r : RateOffer) : RateMap :=
  let m1 := if hasKey m (rateKey r) then m else m ++ [(rateKey r, baseGrouped r)]
  m1.map (fun e => if e.1 = rateKey r then (e.1, addToGrouped e.2 pidx r) else e)

/-- The nested `shipments.forEach(s => s.rates.forEach(r => ...))` loop
building `rateMap`. -/
def buildRateMap (shipments : List Shipment) : RateMap :=
  shipments.foldl
    (fun m s => s.rates.foldl (fun m r => insertRate m s.packageIndex r) m) []

/-- One aggregated quote as pushed into `completeRates`.  The source
renders `amount` as `total_amount.toFixed(2)`; the exact rational total
is kept here instead (claim C2). -/
structure AggregatedQuote where
  key : String
  provider : String
  servicelevel : ServiceLevel
  estimated_days : Option Nat
  amount : ℚ
  currency : String
  package_rates : List PackageRateRef
deriving DecidableEq, Repr

/-- The quote built from one full `rateMap` entry. -/
def mkQuote (k : String) (g : Grouped) : AggregatedQuote :=
  { key := k, provider := g.provider, servicelevel := g.servicelevel,
    estimated_days := g.estimated_days, amount := g.total_amount,
    currency := g.currency, package_rates := g.package_rates }

/-- The final filter of `getRatesForPackages`: only entries whose
`package_rates` list has exactly one reference per package are emitted,
in `rateMap` insertion order. -/
def completeRates (m : RateMap) (numPackages : Nat) : List AggregatedQuote :=
  (m.filter (fun e => e.2.package_rates.length == numPackages)).map
    (fun e => mkQuote e.1 e.2)

/-- `getRatesForPackages`, taking the create-shipment responses (one per
package, index-aligned) in place of the network. -/
def getRatesForPackages (rs : List ShipmentResult) : Except String (List AggregatedQuote) :=
  match mkShipments 0 rs with
  | .error e => .error e
  | .ok ss => .ok (completeRates (buildRateMap ss) rs.length)

/-- Response of one Shippo create-transaction (label purchase) call:
HTTP status, optional `detail`, a stand-in for `JSON.stringify` of the
body (`dataJson`), the body `status` field, the texts of the `messages`
array, and the success payload fields. -/
structure TransactionResult where
  status : Nat
  detail : Option String
  dataJson : Option String
  txStatus : String
  messages : List String
  tracking_number : String
  label_url : String
  tracking_url_provider : String
  object_id : String
deriving DecidableEq, Repr

/-- The fields returned by `purchaseLabel` on success. -/
structure LabelInfo where
  tracking_number : String
  label_url : String
  tracking_url : String
  transaction_id : String
deriving DecidableEq, Repr

/-- The error message of a transaction whose body status is `ERROR`:
the message texts joined by `", "`, or `"Label purchase failed"` when
the join is empty. -/
def labelErrMsg (msgs : List String) : String :=
  let s := String.intercalate ", " msgs
  if s = "" then "Label purchase failed" else s

/-- `purchaseLabel`, taking the remote response in place of the network:
non-2xx status throws `detail || JSON.stringify(data) || "Failed to
purchase label"`; a body status of `ERROR` throws the joined message
texts; otherwise the tracking and label fields are returned. -/
def purchaseLabel (t : TransactionResult) : Except String LabelInfo :=
  if t.status ≠ 201 ∧ t.status ≠ 200 then
    .error (jsOr t.detail (jsOr t.dataJson "Failed to purchase label"))
  else if t.txStatus = "ERROR" then
    .error (labelErrMsg t.messages)
  else
    .ok ⟨t.tracking_number, t.label_url, t.tracking_url_provider, t.object_id⟩

/-- One element of the `package_rates` array sent to the purchase
endpoint: the package index and the chosen remote rate id. -/
structure PurchaseRateSel where
  packageIndex : Nat
  rate_id : String
deriving DecidableEq, Repr

/-- One element of the `results` array built by `purchaseAllLabels`. -/
structure LabelResult where
  packageIndex : Nat
  tracking_number : String
  label_url : String
  tracking_url : String
deriving DecidableEq, Repr

/-- The `results.push({...})` record for one purchased pair. -/
def mkLabelResult (p : PurchaseRateSel) (info : LabelInfo) : LabelResult :=
  ⟨p.packageIndex, info.tracking_number, info.label_url, info.tracking_url⟩

/-- Instrumented model of the `purchaseAllLabels` loop.  `tx i` is the
remote response to the i-th issued purchase call; the result is the
ordered list of rate ids actually sent to the carrier, the list of
completed `LabelResult`s accumulated in `results`, and the error that
aborted the loop, if any.  The loop is strictly sequential: a failure
stops it before any later call is issued. -/
def runPurchases (tx : Nat → TransactionResult) :
    List PurchaseRateSel → Nat → List String × List LabelResult × Option String
  | [], _ => ([], [], none)
  | p :: rest, i =>
    match purchaseLabel (tx i) with
    | .error e => ([p.rate_id], [], some e)
    | .ok info =>
      let r := runPurchases tx rest (i + 1)
      (p.rate_id :: r.1, mkLabelResult p info :: r.2.1, r.2.2)

/-- `purchaseAllLabels` as seen by its caller: the completed list on
full success, the aborting error otherwise (the locally accumulated
partial `results` are discarded by the thrown exception). -/
def purchaseAllLabels (tx : Nat → TransactionResult) (prs : List PurchaseRateSel) :
    Except String (List LabelResult) :=
  match (runPurchases tx prs 0).2.2 with
  | some e => .error e
  | none => .ok (runPurchases tx prs 0).2.1

/-- The PrintNode side of the world: whether the service is configured
(the source checks the API key and a nonzero printer id), the response
to the i-th label print job, and the response to the packing-slip job.
`Except.error` models a rejected request (transport error), `Except.ok`
a response with its HTTP status and body. -/
structure PrintWorld where
  configured : Bool
  jobs : Nat → Except String (Nat × String)
  slipJob : Except String (Nat × String)

/-- The label print loop: a thrown transport error is caught and aborts
the remaining jobs returning false; per-job non-201 statuses are only
logged and do not stop the loop, which then returns true. -/
def printJobsLoop (pw : PrintWorld) : Nat → Nat → Bool
  | _, 0 => true
  | i, n + 1 =>
    match pw.jobs i with
    | .error _ => false
    | .ok _ => printJobsLoop pw (i + 1) n

/-- `printLabels`: false when PrintNode is not configured, otherwise the
result of the job loop over the label URLs. -/
def printLabels (pw : PrintWorld) (labelUrls : List String) : Bool :=
  if pw.configured then printJobsLoop pw 0 labelUrls.length else false

/-- `printPackingSlip`: false when not configured or on a thrown error,
otherwise whether the job got HTTP status 201. -/
def printPackingSlip (pw : PrintWorld) : Bool :=
  if pw.configured then
    match pw.slipJob with
    | .error _ => false
    | .ok st => st.1 == 201
  else false

/-- A stored order record (`orderData`).  The `total` dollar string
(IEEE-754 formatting) and the `completed_at` wall-clock timestamp of the
source are omitted; no claim refers to them. -/
structure OrderRecord where
  method : String
  delivery : String
  labels : List LabelResult
deriving DecidableEq, Repr

/-- The `completedOrders` JavaScript `Map`: an insertion-ordered
association list from idempotency key to order record. -/
abbrev Ledger := List (String × OrderRecord)

/-- `completedOrders.get k` (first entry under the key). -/
def ledgerGet (l : Ledger) (k : String) : Option OrderRecord :=
  (l.find? (fun e => e.1 == k)).map (fun e => e.2)

/-- `completedOrders.has k`. -/
def ledgerHas (l : Ledger) (k : String) : Bool :=
  (l.find? (fun e => e.1 == k)).isSome

/-- `completedOrders.set k v`: replace in place when the key exists,
append otherwise. -/
def ledgerSet (l : Ledger) (k : String) (v : OrderRecord) : Ledger :=
  if ledgerHas l k then l.map (fun e => if e.1 = k then (k, v) else e)
  else l ++ [(k, v)]

/-- The selected quote optionally echoed back by the client
(`selectedRate`), as used to build the stored order record. -/
structure SelectedRate where
  provider : String
  servicelevel : ServiceLevel
  estimated_days : Option Nat
  amount : String
deriving DecidableEq, Repr

/-- `${selectedRate.estimated_days || "N/A"} business days`: both a
missing field and the number 0 are falsy. -/
def deliveryString (d : Option Nat) : String :=
  (match d with
   | some n => if n = 0 then "N/A" else toString n
   | none => "N/A") ++ " business days"

/-- The `orderData` record stored under the idempotency key. -/
def mkOrderRecord (sel : Option SelectedRate) (labels : List LabelResult) : OrderRecord :=
  { method := match sel with
      | some s => s.provider ++ " - " ++ s.servicelevel.name
      | none => "N/A",
    delivery := match sel with
      | some s => deliveryString s.estimated_days
      | none => "N/A",
    labels := labels }

/-- The body of a POST /api/purchase request.  `pkgId` is the optional
idempotency key (`none` models an absent field; the empty string is
falsy exactly as in the source guard).  The `packages` and `destination`
fields only feed printing and logging and are not modelled. -/
structure PurchaseRequest where
  package_rates : List PurchaseRateSel
  pkgId : Option String
  selectedRate : Option SelectedRate
deriving DecidableEq, Repr

/-- JavaScript truthiness of the `pkgId` field. -/
def pkgIdTruthy : Option String → Bool
  | none => false
  | some s => s != ""

/-- The idempotency key used with the ledger when `pkgId` is truthy. -/
def reqKey (req : PurchaseRequest) : String := req.pkgId.getD ""

/-- The JSON response of the purchase endpoint. -/
inductive PurchaseResponse where
  /-- 400 `This order has already been completed`. -/
  | dupError : PurchaseResponse
  /-- 400 with the message of the error thrown by the purchase loop. -/
  | purchaseError (msg : String) : PurchaseResponse
  /-- 200 `{ success: true, labels }`. -/
  | success (labels : List LabelResult) : PurchaseResponse
deriving DecidableEq, Repr

/-- Everything observable about one purchase request: the response sent
to the caller, the ledger after the request, the rate ids sent to the
carrier in order, and the results of the fire-and-forget print calls
(`none` when not invoked). -/
structure PurchaseOutcome where
  response : PurchaseResponse
  ledger : Ledger
  calls : List String
  printedLabels : Option Bool
  printedSlip : Option Bool

/-- The POST /api/purchase handler: duplicate guard when `pkgId` is
truthy, then the sequential purchase loop, then (on success) the
fire-and-forget print calls and the conditional ledger insert. -/
def handlePurchase (led : Ledger) (tx : Nat → TransactionResult) (pw : PrintWorld)
    (req : PurchaseRequest) : PurchaseOutcome :=
  if pkgIdTruthy req.pkgId && ledgerHas led (reqKey req) then
    { response := .dupError, ledger := led, calls := [],
      printedLabels := none, printedSlip := none }
  else
    let r := runPurchases tx req.package_rates 0
    match r.2.2 with
    | some e =>
      { response := .purchaseError e, ledger := led, calls := r.1,
        printedLabels := none, printedSlip := none }
    | none =>
      let pl := printLabels pw (r.2.1.map (fun l => l.label_url))
      let ps := printPackingSlip pw
      let led' := if pkgIdTruthy req.pkgId then
          ledgerSet led (reqKey req) (mkOrderRecord req.selectedRate r.2.1)
        else led
      { response := .success r.2.1, ledger := led', calls := r.1,
        printedLabels := some pl, printedSlip := some ps }

/-- The JSON response of GET /api/order/{id}: an existence flag and, when
present, the stored record. -/
structure OrderLookupResponse where
  found : Bool
  order : Option OrderRecord
deriving DecidableEq, Repr

/-- The GET /api/order/{id} handler (the id is the already-decoded path
suffix): a pure lookup returning the unchanged ledger. -/
def handleGetOrder (led : Ledger) (pkgId : String) : OrderLookupResponse × Ledger :=
  match ledgerGet led pkgId with
  | some o => (⟨true, some o⟩, led)
  | none => (⟨false, none⟩, led)

/-! ### Observation functions and lemmas for the rate aggregation -/

/-- First entry of a rate map under a key (`rateMap.get k`; keys are
unique by construction, see `nodup_keys_buildRateMap`). -/
def mapLookup : RateMap → String → Option Grouped
  | [], _ => none
  | e :: t, k => if e.1 = k then some e.2 else mapLookup t k

/-- Length of the accumulated `package_rates` list under a key, 0 when
the key is absent. -/
def plen (m : RateMap) (k : String) : Nat :=
  match mapLookup m k with
  | some g => g.package_rates.length
  | none => 0

/-- One step of the aggregation loop on a package-index / offer pair. -/
def stepIns (m : RateMap) (pr : Nat × RateOffer) : RateMap := insertRate m pr.1 pr.2

/-- The package-index / offer pairs in traversal order of the nested
aggregation loop. -/
def flatRates : List Shipment → List (Nat × RateOffer)
  | [] => []
  | s :: t => s.rates.map (fun r => (s.packageIndex, r)) ++ flatRates t

/-- Number of offers under a key in a flat pair list. -/
def countKey (k : String) (l : List (Nat × RateOffer)) : Nat :=
  l.countP (fun pr => rateKey pr.2 == k)

/-! ### Concrete data used in the claim witnesses and counterexamples -/

/-- A successful transaction response. -/
def txOkSample : TransactionResult :=
  ⟨200, none, none, "SUCCESS", [], "trk", "lurl", "turl", "oid"⟩

/-- A transaction response whose body reports status `ERROR` with one
message. -/
def txErrSample : TransactionResult :=
  ⟨200, none, none, "ERROR", ["Invalid rate"], "", "", "", ""⟩

/-- A remote that accepts every purchase call. -/
def txAllOk : Nat → TransactionResult := fun _ => txOkSample

/-- A remote that accepts the first purchase call and rejects the rest. -/
def txSeq : Nat → TransactionResult := fun i => if i = 0 then txOkSample else txErrSample

/-- An unconfigured PrintNode world. -/
def pwOff : PrintWorld := ⟨false, fun _ => .ok (201, ""), .ok (201, "")⟩

/-- A configured PrintNode world whose every request fails. -/
def pwBad : PrintWorld := ⟨true, fun _ => .error "down", .error "down"⟩

/-- Two package-rate pairs. -/
def prs2 : List PurchaseRateSel := [⟨0, "r0"⟩, ⟨1, "r1"⟩]

/-- A purchase request with idempotency key `A` and one package rate. -/
def reqA : PurchaseRequest := ⟨[⟨0, "rid"⟩], some "A", none⟩

/-- A purchase request with no idempotency key. -/
def reqNoKey : PurchaseRequest := ⟨prs2, none, none⟩

/-- A sample stored order record. -/
def recSample : OrderRecord := ⟨"m", "d", []⟩

/-- Quote responses: two packages, one offer each, same key, for the C1
witness. -/
def offW : RateOffer := ⟨"P", ⟨"s", "Std"⟩, some 3, "5.00", "USD", "rA"⟩

def offW2 : RateOffer := ⟨"P", ⟨"s", "Std"⟩, some 3, "7.50", "USD", "rB"⟩

def rsW : List ShipmentResult :=
  [⟨200, none, "s0", some [offW]⟩, ⟨200, none, "s1", some [offW2]⟩]

/-- Quote responses for the C1 counterexample: package 1 carries two
offers under the same key, package 2 carries none. -/
def offDupA : RateOffer := ⟨"P", ⟨"s", "Std"⟩, some 3, "1.00", "USD", "rA"⟩

def offDupB : RateOffer := ⟨"P", ⟨"s", "Std"⟩, some 3, "2.00", "USD", "rB"⟩

def rsDup : List ShipmentResult :=
  [⟨200, none, "s0", some [offDupA, offDupB]⟩, ⟨200, none, "s1", some []⟩]

/-- Offers of two distinct (provider, service-level token) pairs whose
concatenated keys collide, for C9. -/
def off9a : RateOffer := ⟨"UPS-X", ⟨"ground", "GX"⟩, some 3, "1.00", "USD", "r0"⟩

def off9b : RateOffer := ⟨"UPS", ⟨"X-ground", "NX"⟩, some 9, "2.00", "USD", "r1"⟩

def rs9 : List ShipmentResult :=
  [⟨200, none, "s0", some [off9a]⟩, ⟨200, none, "s1", some [off9b]⟩]

/-- Quote responses for the C5 witness: package 2 fails with a detail
message. -/
def rs5 : List ShipmentResult :=
  [⟨200, none, "s", some []⟩, ⟨500, some "boom", "x", none⟩]

/-- The shipment list built when every create-shipment call succeeds. -/
def okShipments : Nat → List ShipmentResult → List Shipment
  | _, [] => []
  | idx, r :: rest => ⟨idx, r.object_id, jsRates r⟩ :: okShipments (idx + 1) rest

theorem hasKey_iff_lookup (m : RateMap) (k : String) :
    hasKey m k = true ↔ mapLookup m k ≠ none := by
  induction m with
  | nil => simp [hasKey, mapLookup]
  | cons e t ih =>
    by_cases h : e.1 = k
    · simp [hasKey, mapLookup, h]
    · simp only [hasKey, List.any_cons] at *
      simp [mapLookup, h, ih]

theorem mapLookup_append (a b : RateMap) (k : String) :
    mapLookup (a ++ b) k = match mapLookup a k with
      | some g => some g
      | none => mapLookup b k := by
  induction a with
  | nil => simp [mapLookup]
  | cons e t ih =>
    by_cases h : e.1 = k
    · simp [mapLookup, h]
    · simpa [mapLookup, h] using ih

theorem mapLookup_map_upd (m : RateMap) (pidx : Nat) (r : RateOffer) (k : String) :
    mapLookup (m.map (fun e => if e.1 = rateKey r then (e.1, addToGrouped e.2 pidx r) else e)) k
      = if k = rateKey r then (mapLookup m k).map (fun g => addToGrouped g pidx r)
        else mapLookup m k := by
  induction m with
  | nil => by_cases h : k = rateKey r <;> simp [mapLookup, h]
  | cons e t ih =>
    by_cases h1 : e.1 = rateKey r
    · rw [List.map_cons, if_pos h1]
      by_cases h2 : e.1 = k
      · have hkr : k = rateKey r := h2.symm.trans h1
        simp [mapLookup, h2, hkr]
      · have hkr : ¬ k = rateKey r := fun hx => h2 (h1.trans hx.symm)
        simp [mapLookup, h2, hkr, ih]
    · rw [List.map_cons, if_neg h1]
      by_cases h2 : e.1 = k
      · have hkr : ¬ k = rateKey r := fun hx => h1 (h2.trans hx)
        simp [mapLookup, h2, hkr]
      · simp [mapLookup, h2, ih]

theorem mapLookup_insertRate (m : RateMap) (pidx : Nat) (r : RateOffer) (k : String) :
    mapLookup (insertRate m pidx r) k =
      if k = rateKey r then
        some (addToGrouped ((mapLookup m k).getD (baseGrouped r)) pidx r)
      else mapLookup m k := by
  by_cases h : hasKey m (rateKey r)
  · have hstep : insertRate m pidx r
        = m.map (fun e => if e.1 = rateKey r then (e.1, addToGrouped e.2 pidx r) else e) := by
      simp [insertRate, h]
    rw [hstep, mapLookup_map_upd]
    by_cases hk : k = rateKey r
    · have hne : mapLookup m (rateKey r) ≠ none := (hasKey_iff_lookup m (rateKey r)).mp h
      cases hg : mapLookup m k with
      | none => rw [hk] at hg; exact absurd hg hne
      | some g => simp [hk, hg]
    · simp [hk]
  · have hb : hasKey m (rateKey r) = false := by
      cases hx : hasKey m (rateKey r)
      · rfl
      · exact absurd hx h
    have hstep : insertRate m pidx r
        = (m ++ [(rateKey r, baseGrouped r)]).map
            (fun e => if e.1 = rateKey r then (e.1, addToGrouped e.2 pidx r) else e) := by
      simp [insertRate, hb]
    have hnone : mapLookup m (rateKey r) = none := by
      by_contra hne
      exact h ((hasKey_iff_lookup m (rateKey r)).mpr hne)
    rw [hstep, mapLookup_map_upd, mapLookup_append]
    by_cases hk : k = rateKey r
    · rw [hk, hnone]
      simp [mapLookup, hnone]
    · have hrk : ¬ rateKey r = k := fun hx => hk hx.symm
      have hsing : mapLookup [(rateKey r, baseGrouped r)] k = none := by
        simp [mapLookup, hrk]
      cases hg : mapLookup m k <;> simp [hk, hg, hsing]

theorem plen_insertRate (m : RateMap) (pidx : Nat) (r : RateOffer) (k : String) :
    plen (insertRate m pidx r) k
      = plen m k + (if rateKey r == k then 1 else 0) := by
  unfold plen
  rw [mapLookup_insertRate]
  by_cases hk : k = rateKey r
  · have hb : (rateKey r == k) = true := by simp [hk]
    rw [if_pos hk, hb]
    cases hg : mapLookup m k with
    | none => simp [addToGrouped, baseGrouped]
    | some g => simp [addToGrouped]
  · have hb : ¬ (rateKey r == k) = true := by
      simp only [beq_iff_eq]
      exact fun hx => hk hx.symm
    rw [if_neg hk, if_neg hb]
    simp

theorem lookup_insertRate_none (m : RateMap) (pidx : Nat) (r : RateOffer) (k : String) :
    mapLookup (insertRate m pidx r) k = none
      ↔ mapLookup m k = none ∧ ¬ rateKey r = k := by
  rw [mapLookup_insertRate]
  by_cases hk : k = rateKey r
  · simp [hk]
  · have : ¬ rateKey r = k := fun hx => hk hx.symm
    simp [hk, this]

theorem plen_foldl (l : List (Nat × RateOffer)) :
    ∀ (m : RateMap) (k : String),
      plen (l.foldl stepIns m) k = plen m k + countKey k l := by
  induction l with
  | nil => intro m k; simp [countKey]
  | cons pr t ih =>
    intro m k
    rw [List.foldl_cons, ih]
    have hstep : plen (stepIns m pr) k
        = plen m k + (if rateKey pr.2 == k then 1 else 0) := plen_insertRate m pr.1 pr.2 k
    rw [hstep]
    have hcnt : countKey k (pr :: t)
        = countKey k t + (if rateKey pr.2 == k then 1 else 0) := by
      simp [countKey, List.countP_cons]
    rw [hcnt]
    by_cases hb : rateKey pr.2 == k
    · simp [hb]
      omega
    · simp [hb]

theorem lookup_foldl_none (l : List (Nat × RateOffer)) :
    ∀ (m : RateMap) (k : String),
      mapLookup (l.foldl stepIns m) k = none ↔ mapLookup m k = none ∧ countKey k l = 0 := by
  induction l with
  | nil => intro m k; simp [countKey]
  | cons pr t ih =>
    intro m k
    rw [List.foldl_cons, ih]
    have hstep : mapLookup (stepIns m pr) k = none
        ↔ mapLookup m k = none ∧ ¬ rateKey pr.2 = k :=
      lookup_insertRate_none m pr.1 pr.2 k
    have hcnt : countKey k (pr :: t)
        = countKey k t + (if rateKey pr.2 == k then 1 else 0) := by
      simp [countKey, List.countP_cons]
    rw [hcnt, hstep]
    by_cases hb : rateKey pr.2 = k
    · have : (rateKey pr.2 == k) = true := by simp [hb]
      simp [this, hb]
    · have : ¬ (rateKey pr.2 == k) = true := by
        simp only [beq_iff_eq]; exact hb
      simp [this, hb]

/-- The key list of the rate map after one insertion: unchanged when the
key was present, the new key appended otherwise. -/
theorem keys_insertRate (m : RateMap) (pidx : Nat) (r : RateOffer) :
    (insertRate m pidx r).map Prod.fst
      = if hasKey m (rateKey r) then m.map Prod.fst
        else m.map Prod.fst ++ [rateKey r] := by
  have hupd : ∀ (l : RateMap),
      (l.map (fun e => if e.1 = rateKey r then (e.1, addToGrouped e.2 pidx r) else e)).map Prod.fst
        = l.map Prod.fst := by
    intro l
    induction l with
    | nil => rfl
    | cons e t ihl =>
      by_cases h : e.1 = rateKey r <;> simp [h, ihl]
  by_cases h : hasKey m (rateKey r)
  · rw [if_pos h]
    simpa [insertRate, h] using hupd m
  · have hb : hasKey m (rateKey r) = false := by
      cases hx : hasKey m (rateKey r)
      · rfl
      · exact absurd hx h
    rw [if_neg h]
    have : insertRate m pidx r
        = ((m ++ [(rateKey r, baseGrouped r)]).map
            (fun e => if e.1 = rateKey r then (e.1, addToGrouped e.2 pidx r) else e)) := by
      simp [insertRate, hb]
    rw [this, hupd]
    simp

theorem nodup_keys_insertRate (m : RateMap) (pidx : Nat) (r : RateOffer)
    (h : (m.map Prod.fst).Nodup) : ((insertRate m pidx r).map Prod.fst).Nodup := by
  rw [keys_insertRate]
  by_cases hk : hasKey m (rateKey r)
  · simpa [hk] using h
  · have hb : hasKey m (rateKey r) = false := by
      cases hx : hasKey m (rateKey r)
      · rfl
      · exact absurd hx hk
    have hnotin : rateKey r ∉ m.map Prod.fst := by
      intro hmem
      obtain ⟨e, he, hfst⟩ := List.mem_map.mp hmem
      have : hasKey m (rateKey r) = true := by
        simp only [hasKey, List.any_eq_true]
        exact ⟨e, he, by simp [hfst]⟩
      rw [this] at hb
      cases hb
    simp [hk, List.nodup_append, h, hnotin]

theorem nodup_keys_foldl (l : List (Nat × RateOffer)) :
    ∀ (m : RateMap), (m.map Prod.fst).Nodup → ((l.foldl stepIns m).map Prod.fst).Nodup := by
  induction l with
  | nil => intro m h; simpa using h
  | cons pr t ih =>
    intro m h
    rw [List.foldl_cons]
    exact ih _ (nodup_keys_insertRate m pr.1 pr.2 h)

/-- Under unique keys, membership in the rate map coincides with lookup. -/
theorem mem_iff_mapLookup (m : RateMap) (h : (m.map Prod.fst).Nodup) (k : String) (g : Grouped) :
    (k, g) ∈ m ↔ mapLookup m k = some g := by
  induction m with
  | nil => simp [mapLookup]
  | cons e t ih =>
    simp only [List.map_cons, List.nodup_cons] at h
    constructor
    · intro hmem
      rcases List.mem_cons.mp hmem with hhead | htail
      · rw [← hhead]
        simp [mapLookup]
      · have hne : ¬ e.1 = k := by
          intro hx
          exact h.1 (hx ▸ List.mem_map.mpr ⟨(k, g), htail, rfl⟩)
        simp [mapLookup, hne, (ih h.2).mp htail]
    · intro hlk
      by_cases he : e.1 = k
      · simp only [mapLookup, if_pos he] at hlk
        injection hlk with hgg
        have hkg : (k, g) = e := by
          rw [← he, ← hgg]
        rw [hkg]
        exact List.mem_cons_self _ _
      · simp only [mapLookup, if_neg he] at hlk
        exact List.mem_cons_of_mem _ ((ih h.2).mpr hlk)

/-- The nested aggregation loop equals a single fold over the flattened
pair list. -/
theorem buildRateMap_eq_foldl (ss : List Shipment) :
    buildRateMap ss = (flatRates ss).foldl stepIns [] := by
  suffices h : ∀ (m : RateMap),
      ss.foldl (fun m s => s.rates.foldl (fun m r => insertRate m s.packageIndex r) m) m
        = (flatRates ss).foldl stepIns m from h []
  induction ss with
  | nil => intro m; simp [flatRates]
  | cons s t ih =>
    intro m
    rw [List.foldl_cons]
    show t.foldl _ (s.rates.foldl (fun m r => insertRate m s.packageIndex r) m) = _
    rw [ih, flatRates, List.foldl_append, List.foldl_map]
    rfl

theorem countKey_flatRates (k : String) (ss : List Shipment) :
    countKey k (flatRates ss)
      = (ss.map (fun s => s.rates.countP (fun r => rateKey r == k))).sum := by
  induction ss with
  | nil => simp [flatRates, countKey]
  | cons s t ih =>
    rw [flatRates]
    simp only [countKey, List.countP_append, List.map_cons, List.sum_cons]
    rw [List.countP_map]
    simp only [countKey] at ih
    rw [ih]
    rfl

theorem mkShipments_ok_eq :
    ∀ (rs : List ShipmentResult) (i : Nat) (ss : List Shipment),
      mkShipments i rs = .ok ss → ss = okShipments i rs := by
  intro rs
  induction rs with
  | nil =>
    intro i ss h
    simp only [mkShipments] at h
    injection h with h
    rw [← h]
    rfl
  | cons r t ih =>
    intro i ss h
    simp only [mkShipments] at h
    split at h
    · cases h
    · cases hrec : mkShipments (i + 1) t with
      | error e => rw [hrec] at h; cases h
      | ok ss2 =>
        rw [hrec] at h
        injection h with h
        rw [← h, okShipments, ih (i + 1) ss2 hrec]

theorem okShipments_length (rs : List ShipmentResult) :
    ∀ i, (okShipments i rs).length = rs.length := by
  induction rs with
  | nil => intro i; rfl
  | cons r t ih => intro i; simp [okShipments, ih]

theorem okShipments_map_count (rs : List ShipmentResult) (k : String) :
    ∀ i, (okShipments i rs).map (fun s => s.rates.countP (fun r => rateKey r == k))
      = rs.map (fun r => (jsRates r).countP (fun off => rateKey off == k)) := by
  induction rs with
  | nil => intro i; rfl
  | cons r t ih => intro i; simp [okShipments, ih]

theorem sum_le_length (ns : List Nat) (h : ∀ x ∈ ns, x ≤ 1) : ns.sum ≤ ns.length := by
  induction ns with
  | nil => simp
  | cons a t ih =>
    simp only [List.mem_cons, forall_eq_or_imp] at h
    simp only [List.sum_cons, List.length_cons]
    have := ih h.2
    omega

theorem sum_eq_length_iff_ones (ns : List Nat) (h : ∀ x ∈ ns, x ≤ 1) :
    ns.sum = ns.length ↔ ∀ x ∈ ns, x = 1 := by
  induction ns with
  | nil => simp
  | cons a t ih =>
    simp only [List.mem_cons, forall_eq_or_imp] at h ⊢
    simp only [List.sum_cons, List.length_cons]
    have hle := sum_le_length t h.2
    have hiff := ih h.2
    constructor
    · intro hsum
      have ha : a = 1 := by omega
      have ht : t.sum = t.length := by omega
      exact ⟨ha, hiff.mp ht⟩
    · intro hall
      have := hiff.mpr hall.2
      omega

theorem countP_le_one_of_nodup_keys (l : List RateOffer) (k : String)
    (h : (l.map rateKey).Nodup) : l.countP (fun r => rateKey r == k) ≤ 1 := by
  induction l with
  | nil => simp
  | cons r t ih =>
    simp only [List.map_cons, List.nodup_cons] at h
    rw [List.countP_cons]
    by_cases hk : rateKey r = k
    · have hz : t.countP (fun x => rateKey x == k) = 0 := by
        rw [List.countP_eq_zero]
        intro x hx
        simp only [beq_iff_eq]
        intro hxk
        exact h.1 (List.mem_map.mpr ⟨x, hx, hxk.trans hk.symm⟩)
      simp [hz, hk]
    · have : ¬ (rateKey r == k) = true := by simp [hk]
      simp only [this, if_false]
      simpa using ih h.2

theorem completeRates_lengths (m : RateMap) (n : Nat) :
    ∀ q ∈ completeRates m n, q.package_rates.length = n := by
  intro q hq
  simp only [completeRates, List.mem_map, List.mem_filter] at hq
  obtain ⟨e, ⟨_, hlen⟩, hmk⟩ := hq
  rw [← hmk]
  simpa [mkQuote] using hlen

theorem completeRates_key_iff (m : RateMap) (n : Nat) (k : String) :
    (∃ q ∈ completeRates m n, q.key = k)
      ↔ ∃ g, (k, g) ∈ m ∧ g.package_rates.length = n := by
  constructor
  · intro ⟨q, hq, hkey⟩
    simp only [completeRates, List.mem_map, List.mem_filter] at hq
    obtain ⟨e, ⟨hmem, hlen⟩, hmk⟩ := hq
    refine ⟨e.2, ?_, by simpa using hlen⟩
    have he1 : e.1 = k := by
      rw [← hkey, ← hmk]
      rfl
    rw [← he1]
    exact hmem
  · intro ⟨g, hmem, hlen⟩
    refine ⟨mkQuote k g, ?_, rfl⟩
    simp only [completeRates, List.mem_map, List.mem_filter]
    exact ⟨(k, g), ⟨hmem, by simpa using hlen⟩, rfl⟩

/-- Main aggregation characterization (used for claim C1): when every
create-shipment call succeeds, the request has at least one package, and
no single package offer list repeats a (provider, service-level) key, a
quote under a key is returned iff every package has an offer under that
key; the constituent count always equals the package count. -/
theorem aggregated_iff_every_package (rs : List ShipmentResult)
    (qs : List AggregatedQuote) (k : String)
    (hok : getRatesForPackages rs = .ok qs)
    (hne : rs ≠ [])
    (hnodup : ∀ r ∈ rs, ((jsRates r).map rateKey).Nodup) :
    (∀ q ∈ qs, q.package_rates.length = rs.length) ∧
    ((∃ q ∈ qs, q.key = k) ↔ ∀ r ∈ rs, ∃ off ∈ jsRates r, rateKey off = k) := by
  have hqs : qs = completeRates (buildRateMap (okShipments 0 rs)) rs.length := by
    unfold getRatesForPackages at hok
    cases hms : mkShipments 0 rs with
    | error e => rw [hms] at hok; cases hok
    | ok ss =>
      rw [hms] at hok
      injection hok with hok
      rw [← hok, mkShipments_ok_eq rs 0 ss hms]
  set M := buildRateMap (okShipments 0 rs) with hM
  have hlen1 : ∀ q ∈ qs, q.package_rates.length = rs.length := by
    rw [hqs]; exact completeRates_lengths M rs.length
  refine ⟨hlen1, ?_⟩
  have hnodupM : (M.map Prod.fst).Nodup := by
    rw [hM, buildRateMap_eq_foldl]
    exact nodup_keys_foldl _ [] (by simp)
  have hplen : plen M k = countKey k (flatRates (okShipments 0 rs)) := by
    rw [hM, buildRateMap_eq_foldl]
    have h0 : plen ([] : RateMap) k = 0 := by simp [plen, mapLookup]
    have := plen_foldl (flatRates (okShipments 0 rs)) [] k
    rw [h0] at this
    simpa using this
  have hnone : mapLookup M k = none
      ↔ countKey k (flatRates (okShipments 0 rs)) = 0 := by
    rw [hM, buildRateMap_eq_foldl]
    have := lookup_foldl_none (flatRates (okShipments 0 rs)) [] k
    simpa [mapLookup] using this
  set counts := rs.map (fun r => (jsRates r).countP (fun off => rateKey off == k))
    with hcounts
  have hC : countKey k (flatRates (okShipments 0 rs)) = counts.sum := by
    rw [countKey_flatRates, okShipments_map_count]
  have hbound : ∀ x ∈ counts, x ≤ 1 := by
    intro x hx
    rw [hcounts] at hx
    obtain ⟨r, hr, hrx⟩ := List.mem_map.mp hx
    rw [← hrx]
    exact countP_le_one_of_nodup_keys _ k (hnodup r hr)
  have hclen : counts.length = rs.length := by
    rw [hcounts, List.length_map]
  have hn : 0 < rs.length := List.length_pos.mpr hne
  rw [hqs, completeRates_key_iff]
  constructor
  · intro ⟨g, hmem, hglen⟩
    have hlk : mapLookup M k = some g := (mem_iff_mapLookup M hnodupM k g).mp hmem
    have hp : plen M k = rs.length := by
      unfold plen
      rw [hlk]
      exact hglen
    have hsum : counts.sum = counts.length := by
      rw [← hC, ← hplen, hp, hclen]
    have hall := (sum_eq_length_iff_ones counts hbound).mp hsum
    intro r hr
    have hmemc : (jsRates r).countP (fun off => rateKey off == k) ∈ counts := by
      rw [hcounts]
      exact List.mem_map.mpr ⟨r, hr, rfl⟩
    have hx : (jsRates r).countP (fun off => rateKey off == k) = 1 := hall _ hmemc
    have hpos : 0 < (jsRates r).countP (fun off => rateKey off == k) := by omega
    obtain ⟨off, hoff, hoffk⟩ := List.countP_pos_iff.mp hpos
    exact ⟨off, hoff, by simpa using hoffk⟩
  · intro hall
    have hones : ∀ x ∈ counts, x = 1 := by
      intro x hx
      have hle := hbound x hx
      rw [hcounts] at hx
      obtain ⟨r, hr, hrx⟩ := List.mem_map.mp hx
      obtain ⟨off, hoff, hoffk⟩ := hall r hr
      have hpos : 0 < (jsRates r).countP (fun off => rateKey off == k) :=
        List.countP_pos_iff.mpr ⟨off, hoff, by simpa using hoffk⟩
      omega
    have hsum : counts.sum = counts.length :=
      (sum_eq_length_iff_ones counts hbound).mpr hones
    have hp : plen M k = rs.length := by
      rw [hplen, hC, hsum, hclen]
    have hnz : counts.sum ≠ 0 := by
      rw [hsum, hclen]
      omega
    have hlkne : mapLookup M k ≠ none := by
      intro h0
      have := hnone.mp h0
      rw [hC] at this
      exact hnz this
    cases hlk : mapLookup M k with
    | none => exact absurd hlk hlkne
    | some g =>
      refine ⟨g, (mem_iff_mapLookup M hnodupM k g).mpr hlk, ?_⟩
      have hpg : plen M k = g.package_rates.length := by
        unfold plen
        rw [hlk]
      rw [← hpg, hp]

/-- A create-shipment failure at the first failing index aborts
`mkShipments` with that package error message. -/
theorem mkShipments_fails :
    ∀ (rs : List ShipmentResult) (b i : Nat) (hi : i < rs.length),
      ((rs.get ⟨i, hi⟩).status ≠ 201 ∧ (rs.get ⟨i, hi⟩).status ≠ 200) →
      (∀ j (hj : j < rs.length), j < i →
        ¬ ((rs.get ⟨j, hj⟩).status ≠ 201 ∧ (rs.get ⟨j, hj⟩).status ≠ 200)) →
      mkShipments b rs = .error (shipmentFailMsg (b + i) (rs.get ⟨i, hi⟩)) := by
  intro rs
  induction rs with
  | nil =>
    intro b i hi
    simp at hi
  | cons r t ih =>
    intro b i hi hbad hgood
    cases i with
    | zero =>
      simp only [List.get] at hbad ⊢
      simp [mkShipments, hbad]
    | succ i2 =>
      have hgr : ¬ (r.status ≠ 201 ∧ r.status ≠ 200) := by
        have := hgood 0 (by simp) (Nat.succ_pos i2)
        simpa using this
      have hi2 : i2 < t.length := Nat.lt_of_succ_lt_succ (by simpa using hi)
      have hbad2 : (t.get ⟨i2, hi2⟩).status ≠ 201 ∧ (t.get ⟨i2, hi2⟩).status ≠ 200 := hbad
      have hgood2 : ∀ j (hj : j < t.length), j < i2 →
          ¬ ((t.get ⟨j, hj⟩).status ≠ 201 ∧ (t.get ⟨j, hj⟩).status ≠ 200) := by
        intro j hj hji
        exact hgood (j + 1) (by simpa using Nat.succ_lt_succ hj) (Nat.succ_lt_succ hji)
      have herr := ih (b + 1) i2 hi2 hbad2 hgood2
      have hidx : b + 1 + i2 = b + (i2 + 1) := by omega
      rw [hidx] at herr
      simp only [mkShipments, if_neg hgr, herr]
      rfl

/-- A label-purchase failure at the first failing call index stops the
purchase loop: the issued calls are exactly the first i+1 rate ids, the
accumulated results are exactly the first i, and the loop error is the
failing message. -/
theorem runPurchases_fail :
    ∀ (prs : List PurchaseRateSel) (tx : Nat → TransactionResult) (b i : Nat),
      i < prs.length →
      ∀ (e : String),
      purchaseLabel (tx (b + i)) = .error e →
      (∀ j, j < i → ∃ info, purchaseLabel (tx (b + j)) = .ok info) →
      (runPurchases tx prs b).1 = (prs.take (i + 1)).map (fun p => p.rate_id)
        ∧ (runPurchases tx prs b).2.1.length = i
        ∧ (runPurchases tx prs b).2.2 = some e := by
  intro prs
  induction prs with
  | nil =>
    intro tx b i hi
    simp at hi
  | cons p t ih =>
    intro tx b i hi e hfail hpre
    cases i with
    | zero =>
      rw [Nat.add_zero] at hfail
      simp [runPurchases, hfail]
    | succ i2 =>
      obtain ⟨info, hinfo⟩ := hpre 0 (Nat.succ_pos i2)
      rw [Nat.add_zero] at hinfo
      have hi2 : i2 < t.length := Nat.lt_of_succ_lt_succ (by simpa using hi)
      have hfail2 : purchaseLabel (tx (b + 1 + i2)) = .error e := by
        have hidx : b + 1 + i2 = b + (i2 + 1) := by omega
        rw [hidx]
        exact hfail
      have hpre2 : ∀ j, j < i2 → ∃ info2, purchaseLabel (tx (b + 1 + j)) = .ok info2 := by
        intro j hj
        have hidx : b + 1 + j = b + (j + 1) := by omega
        rw [hidx]
        exact hpre (j + 1) (by omega)
      obtain ⟨hc, hl, he⟩ := ih tx (b + 1) i2 hi2 e hfail2 hpre2
      simp [runPurchases, hinfo, hc, hl, he]

theorem ledgerGet_cons (e : String × OrderRecord) (t : Ledger) (k : String) :
    ledgerGet (e :: t) k = if e.1 = k then some e.2 else ledgerGet t k := by
  by_cases h : e.1 = k
  · have hb : (e.1 == k) = true := by simp [h]
    simp [ledgerGet, List.find?_cons_of_pos _ hb, h]
  · have hb : ¬ (e.1 == k) = true := by simp [h]
    simp [ledgerGet, List.find?_cons_of_neg _ hb, h]

theorem ledgerHas_isSome (l : Ledger) (k : String) :
    ledgerHas l k = (ledgerGet l k).isSome := by
  unfold ledgerHas ledgerGet
  cases l.find? (fun e => e.1 == k) <;> rfl

theorem ledgerHas_false_get (l : Ledger) (k : String)
    (h : ledgerHas l k = false) : ledgerGet l k = none := by
  rw [ledgerHas_isSome] at h
  cases hg : ledgerGet l k
  · rfl
  · rw [hg] at h; cases h

theorem ledgerHas_true_get (l : Ledger) (k : String)
    (h : ledgerHas l k = true) : ∃ w, ledgerGet l k = some w := by
  rw [ledgerHas_isSome] at h
  cases hg : ledgerGet l k
  · rw [hg] at h; cases h
  · exact ⟨_, rfl⟩

theorem ledgerGet_append (a b : Ledger) (k : String) :
    ledgerGet (a ++ b) k = match ledgerGet a k with
      | some v => some v
      | none => ledgerGet b k := by
  induction a with
  | nil => simp [ledgerGet]
  | cons e t ih =>
    rw [List.cons_append, ledgerGet_cons, ledgerGet_cons]
    by_cases h : e.1 = k
    · simp [h]
    · simp [h, ih]

theorem ledgerGet_map_set (l : Ledger) (k : String) (v : OrderRecord) (k2 : String) :
    ledgerGet (l.map (fun x => if x.1 = k then (k, v) else x)) k2
      = if k2 = k then (ledgerGet l k).map (fun _ => v) else ledgerGet l k2 := by
  induction l with
  | nil => by_cases h : k2 = k <;> simp [ledgerGet, h]
  | cons e t ih =>
    by_cases h1 : e.1 = k
    · rw [List.map_cons, if_pos h1]
      by_cases hk2 : k2 = k
      · subst hk2
        simp [ledgerGet_cons, h1]
      · have hx1 : ¬ (k, v).1 = k2 := fun hx => hk2 hx.symm
        have hx2 : ¬ e.1 = k2 := fun hx => hk2 (hx.symm.trans h1)
        simp [ledgerGet_cons, hk2, ih, hx1, hx2]
    · rw [List.map_cons, if_neg h1]
      by_cases hk2 : k2 = k
      · subst hk2
        simp [ledgerGet_cons, h1, ih]
      · by_cases hx : e.1 = k2
        · simp [ledgerGet_cons, hk2, hx]
        · simp [ledgerGet_cons, hk2, hx, ih]

theorem ledgerGet_set_self (l : Ledger) (k : String) (v : OrderRecord) :
    ledgerGet (ledgerSet l k v) k = some v := by
  by_cases h : ledgerHas l k
  · have hset : ledgerSet l k v = l.map (fun x => if x.1 = k then (k, v) else x) := by
      simp [ledgerSet, h]
    rw [hset, ledgerGet_map_set, if_pos rfl]
    obtain ⟨w, hw⟩ := ledgerHas_true_get l k h
    rw [hw]
    rfl
  · have hf : ledgerHas l k = false := by
      cases hx : ledgerHas l k
      · rfl
      · exact absurd hx h
    have hset : ledgerSet l k v = l ++ [(k, v)] := by
      simp [ledgerSet, hf]
    rw [hset, ledgerGet_append, ledgerHas_false_get l k hf]
    simp [ledgerGet_cons]

theorem ledgerGet_set_other (l : Ledger) (k : String) (v : OrderRecord) (k2 : String)
    (h : ¬ k2 = k) : ledgerGet (ledgerSet l k v) k2 = ledgerGet l k2 := by
  by_cases hh : ledgerHas l k
  · have hset : ledgerSet l k v = l.map (fun x => if x.1 = k then (k, v) else x) := by
      simp [ledgerSet, hh]
    rw [hset, ledgerGet_map_set, if_neg h]
  · have hf : ledgerHas l k = false := by
      cases hx : ledgerHas l k
      · rfl
      · exact absurd hx hh
    have hset : ledgerSet l k v = l ++ [(k, v)] := by
      simp [ledgerSet, hf]
    rw [hset, ledgerGet_append]
    have hsing : ledgerGet [(k, v)] k2 = none := by
      have : ¬ (k, v).1 = k2 := fun hx => h hx.symm
      simp [ledgerGet_cons, this, ledgerGet]
    cases hg : ledgerGet l k2 <;> simp [hg, hsing]

/-! ### Claim theorems -/

/-- C1 (amended): for every quote request where all shipment-creation
calls succeed, every returned quote has exactly one constituent package
rate reference per package (unconditionally); and provided the request
has at least one package and no single package offer list carries two
offers under the same (provider, service-level) key, an AggregatedQuote
for a key appears in the returned list iff every package offer list
contains an offer under that key. -/
theorem claim1_quote_iff_every_package (rs : List ShipmentResult)
    (qs : List AggregatedQuote) (k : String)
    (hok : getRatesForPackages rs = .ok qs) :
    (∀ q ∈ qs, q.package_rates.length = rs.length)
    ∧ (rs ≠ [] → (∀ r ∈ rs, ((jsRates r).map rateKey).Nodup) →
        ((∃ q ∈ qs, q.key = k) ↔ ∀ r ∈ rs, ∃ off ∈ jsRates r, rateKey off = k)) := by
  have hqs : qs = completeRates (buildRateMap (okShipments 0 rs)) rs.length := by
    unfold getRatesForPackages at hok
    cases hms : mkShipments 0 rs with
    | error e => rw [hms] at hok; cases hok
    | ok ss =>
      rw [hms] at hok
      injection hok with hok
      rw [← hok, mkShipments_ok_eq rs 0 ss hms]
  constructor
  · rw [hqs]
    exact completeRates_lengths _ rs.length
  · intro hne hnodup
    exact (aggregated_iff_every_package rs qs k hok hne hnodup).2

/-- C1 witness: two packages each quoting the key `P-s` once; the
returned quote has one reference per package and the iff holds. -/
theorem claim1_witness :
    (∀ q ∈ (getRatesForPackages rsW).toOption.getD [], q.package_rates.length = rsW.length)
    ∧ ((∃ q ∈ (getRatesForPackages rsW).toOption.getD [], q.key = "P-s")
        ↔ ∀ r ∈ rsW, ∃ off ∈ jsRates r, rateKey off = "P-s") := by
  have h := claim1_quote_iff_every_package rsW
    ((getRatesForPackages rsW).toOption.getD []) "P-s" rfl
  exact ⟨h.1, h.2 (by decide) (by decide)⟩

/-- C1 counterexample: the claim as stated fails.  First input: package
1 carries two offers under key `P-s`, package 2 carries none, yet a
quote under `P-s` is returned (the two references of package 1 make the
count reach the package total), refuting the only-if direction.  Second
input: with zero packages the quote list is empty although the condition
"every package has an offer under the key" holds vacuously for any key,
refuting the if direction. -/
theorem claim1_counterexample :
    (¬ ((∃ q ∈ (getRatesForPackages rsDup).toOption.getD [], q.key = "P-s")
        ↔ ∀ r ∈ rsDup, ∃ off ∈ jsRates r, rateKey off = "P-s"))
    ∧ getRatesForPackages ([] : List ShipmentResult) = .ok []
    ∧ ¬ ((∃ q ∈ ([] : List AggregatedQuote), q.key = "X-y")
        ↔ ∀ r ∈ ([] : List ShipmentResult), ∃ off ∈ jsRates r, rateKey off = "X-y") := by
  refine ⟨by decide, rfl, by simp⟩

/-- C5: when at least one package create-shipment call returns a
non-success status, the whole quote operation fails with the message of
the first failing package (its `detail` field, or the generic text when
the remote gave none or an empty one), and no quote list is returned. -/
theorem claim5_fail_fast (rs : List ShipmentResult) (i : Nat) (hi : i < rs.length)
    (hbad : (rs.get ⟨i, hi⟩).status ≠ 201 ∧ (rs.get ⟨i, hi⟩).status ≠ 200)
    (hfirst : ∀ j (hj : j < rs.length), j < i →
      ¬ ((rs.get ⟨j, hj⟩).status ≠ 201 ∧ (rs.get ⟨j, hj⟩).status ≠ 200)) :
    getRatesForPackages rs = .error (shipmentFailMsg i (rs.get ⟨i, hi⟩))
    ∧ ∀ qs, getRatesForPackages rs ≠ .ok qs := by
  have h := mkShipments_fails rs 0 i hi hbad hfirst
  rw [Nat.zero_add] at h
  constructor
  · unfold getRatesForPackages
    rw [h]
  · intro qs hq
    unfold getRatesForPackages at hq
    rw [h] at hq
    cases hq

/-- C5 witness: the second package fails with detail `boom`. -/
theorem claim5_witness :
    getRatesForPackages rs5 = .error "boom" :=
  ((claim5_fail_fast rs5 1 (by decide) (by decide) (by decide)).1).trans rfl

/-- C9: aggregation groups by the concatenated string key, not by the
(provider, service-level) pair: the two offers below have distinct
(provider, token) pairs yet equal keys, so they are merged into one
quote whose provider, service level and estimated days come from the
offer encountered first. -/
theorem claim9_hyphen_collision :
    (off9a.provider, off9a.servicelevel.token) ≠ (off9b.provider, off9b.servicelevel.token)
    ∧ rateKey off9a = rateKey off9b
    ∧ (getRatesForPackages rs9).map
        (fun qs => qs.map (fun q =>
          (q.key, q.provider, q.servicelevel.token, q.estimated_days, q.package_rates.length)))
      = .ok [("UPS-X-ground", "UPS-X", "ground", some 3, 2)] :=
  ⟨by decide, rfl, rfl⟩

/-- C3: a purchase request carrying an idempotency key for which an
order record already exists is rejected with the duplicate-order error,
issues zero remote label-purchase calls, leaves the ledger unchanged and
never invokes the printer. -/
theorem claim3_duplicate_rejected (led : Ledger) (tx : Nat → TransactionResult)
    (pw : PrintWorld) (req : PurchaseRequest)
    (h1 : pkgIdTruthy req.pkgId = true)
    (h2 : ledgerHas led (reqKey req) = true) :
    handlePurchase led tx pw req
      = { response := .dupError, ledger := led, calls := [],
          printedLabels := none, printedSlip := none } := by
  simp [handlePurchase, h1, h2]

/-- C3 witness: key `A` already recorded. -/
theorem claim3_witness :
    handlePurchase [("A", recSample)] txAllOk pwOff reqA
      = { response := .dupError, ledger := [("A", recSample)], calls := [],
          printedLabels := none, printedSlip := none } :=
  claim3_duplicate_rejected [("A", recSample)] txAllOk pwOff reqA rfl rfl

/-- C4: purchases are issued strictly one at a time in pair order; when
the call for the pair at position i fails (0-based; the (i+1)-th pair)
after i successful calls, exactly i completed label results are
retained, the issued calls are exactly the rate ids of the first i+1
pairs (none after the failing one), and the caller sees the failing
message. -/
theorem claim4_sequential_fail (tx : Nat → TransactionResult)
    (prs : List PurchaseRateSel) (i : Nat) (e : String)
    (hi : i < prs.length)
    (hfail : purchaseLabel (tx i) = .error e)
    (hpre : ∀ j, j < i → ∃ info, purchaseLabel (tx j) = .ok info) :
    (runPurchases tx prs 0).1 = (prs.take (i + 1)).map (fun p => p.rate_id)
    ∧ (runPurchases tx prs 0).2.1.length = i
    ∧ (runPurchases tx prs 0).2.2 = some e
    ∧ purchaseAllLabels tx prs = .error e := by
  have h0 : purchaseLabel (tx (0 + i)) = .error e := by
    rw [Nat.zero_add]
    exact hfail
  have hp0 : ∀ j, j < i → ∃ info, purchaseLabel (tx (0 + j)) = .ok info := by
    intro j hj
    rw [Nat.zero_add]
    exact hpre j hj
  obtain ⟨hc, hl, he⟩ := runPurchases_fail prs tx 0 i hi e h0 hp0
  refine ⟨hc, hl, he, ?_⟩
  unfold purchaseAllLabels
  rw [he]

/-- C4 witness: two pairs, the second call is rejected with message
`Invalid rate`; both rate ids were sent, one label result is retained. -/
theorem claim4_witness :
    (runPurchases txSeq prs2 0).1 = ["r0", "r1"]
    ∧ (runPurchases txSeq prs2 0).2.1.length = 1
    ∧ purchaseAllLabels txSeq prs2 = .error "Invalid rate" := by
  have h := claim4_sequential_fail txSeq prs2 1 "Invalid rate" (by decide) rfl
    (by
      intro j hj
      have hj0 : j = 0 := by omega
      rw [hj0]
      exact ⟨⟨"trk", "lurl", "turl", "oid"⟩, rfl⟩)
  exact ⟨h.1, h.2.1, h.2.2.2⟩

/-- C6: for a purchase request with a truthy idempotency key, an order
record is inserted under the key iff the whole label-purchase sequence
succeeded; on rejection or purchase failure the ledger is unchanged; and
a record already stored under any key is never changed by any request. -/
theorem claim6_ledger_insert_iff_success (led : Ledger)
    (tx : Nat → TransactionResult) (pw : PrintWorld) (req : PurchaseRequest)
    (hkey : pkgIdTruthy req.pkgId = true) :
    (∀ ls, (handlePurchase led tx pw req).response = .success ls →
      ledgerGet (handlePurchase led tx pw req).ledger (reqKey req)
        = some (mkOrderRecord req.selectedRate ls))
    ∧ ((∀ ls, (handlePurchase led tx pw req).response ≠ .success ls) →
      (handlePurchase led tx pw req).ledger = led)
    ∧ (∀ k2 w, ledgerGet led k2 = some w →
      ledgerGet (handlePurchase led tx pw req).ledger k2 = some w) := by
  by_cases hdup : ledgerHas led (reqKey req) = true
  · have hcond : (pkgIdTruthy req.pkgId && ledgerHas led (reqKey req)) = true := by
      rw [hkey, hdup]
      rfl
    refine ⟨?_, ?_, ?_⟩ <;> simp [handlePurchase, hcond]
  · have hf : ledgerHas led (reqKey req) = false := by
      cases hx : ledgerHas led (reqKey req)
      · rfl
      · exact absurd hx hdup
    have hcond : (pkgIdTruthy req.pkgId && ledgerHas led (reqKey req)) = false := by
      rw [hkey, hf]
      rfl
    cases hr : (runPurchases tx req.package_rates 0).2.2 with
    | some e =>
      refine ⟨?_, ?_, ?_⟩ <;> simp [handlePurchase, hcond, hr]
    | none =>
      have hledger : (handlePurchase led tx pw req).ledger
          = ledgerSet led (reqKey req)
              (mkOrderRecord req.selectedRate (runPurchases tx req.package_rates 0).2.1) := by
        have hf2 : ledgerHas led (req.pkgId.getD "") = false := hf
        simp [handlePurchase, hcond, hr, hkey, reqKey, hf2]
      have hresp : (handlePurchase led tx pw req).response
          = .success (runPurchases tx req.package_rates 0).2.1 := by
        simp [handlePurchase, hcond, hr]
      refine ⟨?_, ?_, ?_⟩
      · intro ls hls
        rw [hresp] at hls
        injection hls with hls2
        rw [hledger, ← hls2]
        exact ledgerGet_set_self led (reqKey req) _
      · intro hneq
        exact absurd hresp (hneq _)
      · intro k2 w hw
        rw [hledger]
        by_cases hk2 : k2 = reqKey req
        · exfalso
          rw [hk2, ledgerHas_false_get led (reqKey req) hf] at hw
          cases hw
        · rw [ledgerGet_set_other led (reqKey req) _ k2 hk2]
          exact hw

/-- C6 witness: a fresh key `A`, one successful purchase, record stored
under the key. -/
theorem claim6_witness :
    ledgerGet (handlePurchase [] txAllOk pwOff reqA).ledger (reqKey reqA)
      = some (mkOrderRecord reqA.selectedRate [⟨0, "trk", "lurl", "turl"⟩]) :=
  (claim6_ledger_insert_iff_success [] txAllOk pwOff reqA rfl).1
    [⟨0, "trk", "lurl", "turl"⟩] rfl

/-- C7: when the purchase sequence succeeds (and the request is not a
duplicate), the response is the success result with the label list, and
response, resulting ledger and issued carrier calls are all independent
of the PrintNode world — printer or packing-slip failure never alters
the purchase outcome. -/
theorem claim7_print_independent (led : Ledger) (tx : Nat → TransactionResult)
    (req : PurchaseRequest) (pw pw2 : PrintWorld)
    (hguard : (pkgIdTruthy req.pkgId && ledgerHas led (reqKey req)) = false)
    (hsucc : (runPurchases tx req.package_rates 0).2.2 = none) :
    (handlePurchase led tx pw req).response
        = .success ((runPurchases tx req.package_rates 0).2.1)
    ∧ (handlePurchase led tx pw req).response = (handlePurchase led tx pw2 req).response
    ∧ (handlePurchase led tx pw req).ledger = (handlePurchase led tx pw2 req).ledger
    ∧ (handlePurchase led tx pw req).calls = (handlePurchase led tx pw2 req).calls := by
  refine ⟨?_, ?_, ?_, ?_⟩ <;> simp [handlePurchase, hguard, hsucc]

/-- C7 witness: the same successful purchase under an unconfigured
printer and under a printer whose every request fails. -/
theorem claim7_witness :
    (handlePurchase [] txAllOk pwOff reqA).response
        = .success ((runPurchases txAllOk reqA.package_rates 0).2.1)
    ∧ (handlePurchase [] txAllOk pwOff reqA).response
        = (handlePurchase [] txAllOk pwBad reqA).response
    ∧ (handlePurchase [] txAllOk pwOff reqA).ledger
        = (handlePurchase [] txAllOk pwBad reqA).ledger
    ∧ (handlePurchase [] txAllOk pwOff reqA).calls
        = (handlePurchase [] txAllOk pwBad reqA).calls :=
  claim7_print_independent [] txAllOk reqA pwOff pwBad rfl rfl

/-- C8: the order lookup endpoint never fails and never modifies the
ledger: it returns the unchanged ledger, an existence flag that is set
exactly when a record is stored under the key, and the stored record
itself. -/
theorem claim8_order_lookup (led : Ledger) (k : String) :
    (handleGetOrder led k).2 = led
    ∧ (handleGetOrder led k).1.found = (ledgerGet led k).isSome
    ∧ (handleGetOrder led k).1.order = ledgerGet led k := by
  unfold handleGetOrder
  cases hg : ledgerGet led k <;> simp [hg]

/-- C10: a purchase request with no (or a falsy) idempotency key skips
the duplicate check, proceeds to the label purchases, and leaves the
ledger unchanged, so an identical repeat request issues the same carrier
calls again. -/
theorem claim10_no_key_frame (led : Ledger) (tx : Nat → TransactionResult)
    (pw : PrintWorld) (req : PurchaseRequest)
    (h : pkgIdTruthy req.pkgId = false) :
    (handlePurchase led tx pw req).ledger = led
    ∧ (handlePurchase led tx pw req).response ≠ .dupError
    ∧ (handlePurchase led tx pw req).calls = (runPurchases tx req.package_rates 0).1
    ∧ (handlePurchase (handlePurchase led tx pw req).ledger tx pw req).calls
        = (handlePurchase led tx pw req).calls := by
  have key : ∀ l2 : Ledger,
      (handlePurchase l2 tx pw req).ledger = l2
      ∧ (handlePurchase l2 tx pw req).response ≠ .dupError
      ∧ (handlePurchase l2 tx pw req).calls = (runPurchases tx req.package_rates 0).1 := by
    intro l2
    cases hr : (runPurchases tx req.package_rates 0).2.2 with
    | none => refine ⟨?_, ?_, ?_⟩ <;> simp [handlePurchase, h, hr]
    | some e => refine ⟨?_, ?_, ?_⟩ <;> simp [handlePurchase, h, hr]
  refine ⟨(key led).1, (key led).2.1, (key led).2.2, ?_⟩
  rw [(key led).1]

/-- C10 witness: a keyless request purchases labels and leaves the empty
ledger empty. -/
theorem claim10_witness :
    (handlePurchase [] txSeq pwOff reqNoKey).ledger = []
    ∧ (handlePurchase [] txSeq pwOff reqNoKey).response ≠ .dupError
    ∧ (handlePurchase [] txSeq pwOff reqNoKey).calls
        = (runPurchases txSeq reqNoKey.package_rates 0).1
    ∧ (handlePurchase (handlePurchase [] txSeq pwOff reqNoKey).ledger txSeq pwOff reqNoKey).calls
        = (handlePurchase [] txSeq pwOff reqNoKey).calls :=
  claim10_no_key_frame [] txSeq pwOff reqNoKey rfl
